import Mathlib

/-!
Shallow embedding of the discord-irc-bridge program (src/main.rs) and proofs
about its behaviour.  Pure functions of the source become Lean functions;
the event-loop branches become functions from an event and the session maps
to the list of outbound calls they perform; fallible collaborator calls are
modelled as `Except`-valued environments; a Rust panic (the byte-slice
`&channel[1..]`) is modelled as `Option.none`.
-/

/-- Guild channel identifier (serenity `ChannelId`, a u64). -/
abbrev ChannelId := Nat

/-- A guild webhook as the bridge sees it: its (optional) name and an opaque
handle distinguishing it (serenity `Webhook`). -/
structure Webhook where
  name : Option String
  handle : Nat
deriving DecidableEq, Repr

/-- Rust `struct CMessage { channel: ChannelId, message: String }`. -/
structure CMessage where
  channel : ChannelId
  message : String
deriving DecidableEq, Repr

/-- Guild channel kind (serenity `ChannelType`), as far as the bridge
inspects it: only `Category` is ever tested for. -/
inductive ChannelKind where
  | category
  | text
  | voice
  | other
deriving DecidableEq, Repr

/-- A guild channel as returned by `guild.channels`: kind, display name and
optional parent category id.  The id itself is the key of the listing pair. -/
structure GuildChannel where
  kind : ChannelKind
  name : String
  parent_id : Option ChannelId
deriving DecidableEq, Repr

/-! ### Identity color derivation: `get_color_from_name` -/

/-- One bit step of the reflected CRC-32 (IEEE) computation: shift right,
conditionally xor the reversed polynomial `0xEDB88320`. -/
def crc32Step (crc : Nat) : Nat :=
  if crc % 2 = 1 then (crc / 2) ^^^ 0xEDB88320 else crc / 2

/-- Fold one input byte into the CRC state (8 bit steps). -/
def crc32Byte (crc b : Nat) : Nat :=
  (crc32Step^[8]) (crc ^^^ b)

/-- CRC-32 (IEEE) of a byte sequence, as computed by `crc32fast::hash`:
initial value `0xFFFFFFFF`, final xor `0xFFFFFFFF`. -/
def crc32 (bytes : List Nat) : Nat :=
  (bytes.foldl crc32Byte 0xFFFFFFFF) ^^^ 0xFFFFFFFF

/-- UTF-8 encoding of one scalar value, as a list of byte values
(model of Rust `str::as_bytes` at the char level). -/
def utf8Char (c : Char) : List Nat :=
  let n := c.toNat
  if n < 0x80 then [n]
  else if n < 0x800 then
    [0xC0 ||| (n >>> 6), 0x80 ||| (n &&& 0x3F)]
  else if n < 0x10000 then
    [0xE0 ||| (n >>> 12), 0x80 ||| ((n >>> 6) &&& 0x3F), 0x80 ||| (n &&& 0x3F)]
  else
    [0xF0 ||| (n >>> 18), 0x80 ||| ((n >>> 12) &&& 0x3F),
     0x80 ||| ((n >>> 6) &&& 0x3F), 0x80 ||| (n &&& 0x3F)]

/-- The UTF-8 bytes of a string (`name.as_bytes()`). -/
def strBytes (s : String) : List Nat :=
  s.data.flatMap utf8Char

/-- Rust `fn get_color_from_name(name: &str) -> u32 { crc32fast::hash(name.as_bytes()) >> 8 }`. -/
def get_color_from_name (name : String) : Nat :=
  crc32 (strBytes name) >>> 8

/-! ### Avatar URL synthesis: `format!("https://singlecolorimage.com/get/{:06x}/1x1", ...)` -/

/-- Lowercase hexadecimal digit character for a value below 16. -/
def hexChar (d : Nat) : Char :=
  if d < 10 then Char.ofNat (48 + d) else Char.ofNat (87 + d)

/-- Fuelled helper for `hexDigits`; the fuel only makes the recursion
structural and is irrelevant once it exceeds the input (`hexDigitsF_fuel`). -/
def hexDigitsF : Nat → Nat → List Char
  | 0, _ => []
  | fuel + 1, n =>
    if n < 16 then [hexChar n] else hexDigitsF fuel (n / 16) ++ [hexChar (n % 16)]

/-- The lowercase hexadecimal digits of `n`, most significant first, no
leading zeros beyond a single digit for small values: the digits that the
Rust formatter `{:x}` prints. -/
def hexDigits (n : Nat) : List Char := hexDigitsF (n + 1) n

/-- The Rust formatter `{:06x}`: lowercase hex, zero-padded on the left to a
minimum width of 6. -/
def format_hex06 (n : Nat) : String :=
  String.mk (List.replicate (6 - (hexDigits n).length) '0' ++ hexDigits n)

/-- The avatar URL the PRIVMSG branch synthesizes for a sender name. -/
def avatar_url_for (name : String) : String :=
  "https://singlecolorimage.com/get/" ++ format_hex06 (get_color_from_name name) ++ "/1x1"

/-! ### Channel-name lookups (`get_correct_webhook`, `get_correct_channel`) -/

/-- Model of the Rust byte slice `&channel[1..]` at the char level of a
valid UTF-8 string.  `none` models the panic: on the empty string byte
index 1 is past the end, and when the first char is multi-byte (its scalar
value is at least 128) byte index 1 is not a char boundary.  Otherwise the
first char occupies exactly one byte and is removed. -/
def slice_from_one (channel : String) : Option String :=
  match channel.data with
  | [] => none
  | c :: rest => if c.toNat < 128 then some (String.mk rest) else none

/-- Function `get_correct_webhook`: iterate over the webhook map, comparing each key
with `&channel[1..]`; first match wins.  The outer `Option` models the
panic of the byte slice (which sits inside the loop, so an empty map never
reaches it); the inner `Option` is the function's own `Option` result. -/
def get_correct_webhook (channel : String) (bridge_webhooks : List (String × Webhook)) :
    Option (Option Webhook) :=
  match bridge_webhooks with
  | [] => some none
  | b :: rest =>
    match slice_from_one channel with
    | none => none
    | some name => if b.1 = name then some (some b.2) else get_correct_webhook channel rest

/-- Function `get_correct_channel`: iterate over the bridged-channel map, comparing
each value (the channel display name) with `&channel[1..]`; first match
wins.  Outer `Option` models the panic as above. -/
def get_correct_channel (channel : String) (bridged_channels : List (ChannelId × String)) :
    Option (Option ChannelId) :=
  match bridged_channels with
  | [] => some none
  | b :: rest =>
    match slice_from_one channel with
    | none => none
    | some name => if b.2 = name then some (some b.1) else get_correct_channel channel rest

/-! ### The event loop branches -/

/-- The IRC commands the loop inspects (`irc::proto::Command`): `PRIVMSG`,
`TOPIC` (whose text is optional), and everything else. -/
inductive IrcCommand where
  | privmsg (channel : String) (text : String)
  | topicCmd (channel : String) (text : Option String)
  | other
deriving DecidableEq, Repr

/-- An inbound IRC message: its command plus `message.source_nickname()`. -/
structure IrcMessage where
  command : IrcCommand
  source_nickname : Option String
deriving DecidableEq, Repr

/-- One webhook-execute call: the builder fields the PRIVMSG branch sets. -/
structure PostCall where
  username : String
  content : String
  avatar_url : String
deriving DecidableEq, Repr

/-- One channel-edit call setting a guild channel's topic. -/
structure TopicEdit where
  channel : ChannelId
  topic : String
deriving DecidableEq, Repr

/-- One `send_privmsg` call: target channel string and text. -/
structure IrcSend where
  target : String
  text : String
deriving DecidableEq, Repr

/-- The outbound guild calls one IRC-branch iteration performs. -/
structure IrcBranchEffects where
  posts : List (Webhook × PostCall)
  edits : List TopicEdit
deriving DecidableEq, Repr

/-- The IRC branch of the `tokio::select!` loop body in `listen_irc`:
dispatch on the message's command; `none` models a panic inside the
channel-name lookup. -/
def handle_irc_message (message : IrcMessage)
    (bridge_webhooks : List (String × Webhook))
    (bridged_channels : List (ChannelId × String)) : Option IrcBranchEffects :=
  match message.command with
  | .privmsg channel text =>
    match get_correct_webhook channel bridge_webhooks with
    | none => none
    | some none => some ⟨[], []⟩
    | some (some h) =>
      let name := message.source_nickname.getD "null"
      some ⟨[(h, ⟨name, text, avatar_url_for name⟩)], []⟩
  | .topicCmd channel text =>
    match get_correct_channel channel bridged_channels with
    | none => none
    | some none => some ⟨[], []⟩
    | some (some chan) => some ⟨[], [⟨chan, text.getD ""⟩]⟩
  | .other => some ⟨[], []⟩

/-- The broadcast-receiver branch of the loop body: look the destination
channel id up in `bridged_channels`; if present send one privmsg to
`#<name>`, otherwise do nothing (channel not bridged). -/
def handle_bridge_message (msg : CMessage) (bridged_channels : List (ChannelId × String)) :
    List IrcSend :=
  match List.lookup msg.channel bridged_channels with
  | some c => [⟨"#" ++ c, msg.message⟩]
  | none => []

/-! ### Channel mapping resolution: `get_bridged_channels` -/

/-- Function `get_bridged_channels` on an already-fetched channel listing (the pure
part, after `guild.channels(http).await?` succeeded): select the last
category named "irc" in listing order; collect the channels whose parent is
that category, keyed by id with their display name as value. -/
def get_bridged_channels (channels : List (ChannelId × GuildChannel)) :
    List (ChannelId × String) :=
  let irc_category :=
    ((channels.filter (fun x => x.2.kind == ChannelKind.category)).filter
      (fun x => x.2.name == "irc")).getLast?
  match irc_category with
  | none => []
  | some category =>
    (channels.filter (fun x =>
        match x.2.parent_id with
        | some p => p == category.1
        | none => false)).map
      (fun x => (x.1, x.2.name))

/-- Function `get_bridged_channels` including its fallible channel-listing call:
`guild.channels(http).await?`. -/
def get_bridged_channels_call
    (listChannels : Except String (List (ChannelId × GuildChannel))) :
    Except String (List (ChannelId × String)) := do
  let channels ← listChannels
  Except.ok (get_bridged_channels channels)

/-! ### Relay-identity provisioning: `get_or_create_webhooks` -/

/-- The inner loop of `get_or_create_webhooks`: scan a channel's existing
webhooks for one whose name is `Some("irc")`; first match wins, webhooks
with a different name or no name are skipped. -/
def find_irc_hook (hooks : List Webhook) : Option Webhook :=
  match hooks with
  | [] => none
  | hook :: rest =>
    match hook.name with
    | some name => if name = "irc" then some hook else find_irc_hook rest
    | none => find_irc_hook rest

/-- Function `get_or_create_webhooks`: per mapped channel, list its webhooks
(`c.0.webhooks(http).await?`, fallible); reuse a webhook named "irc" when
one exists, otherwise create one (`c.0.create_webhook(http, "irc").await?`,
fallible).  Returns the name-keyed webhook map plus the list of channel ids
for which a creation call was made; any call failure aborts the whole
batch with that error. -/
def get_or_create_webhooks (webhooksOf : ChannelId → Except String (List Webhook))
    (create : ChannelId → Except String Webhook)
    (channels : List (ChannelId × String)) :
    Except String (List (String × Webhook) × List ChannelId) :=
  match channels with
  | [] => Except.ok ([], [])
  | c :: rest => do
    let hooks ← webhooksOf c.1
    match find_irc_hook hooks with
    | some hook => do
      let (list, created) ← get_or_create_webhooks webhooksOf create rest
      Except.ok ((c.2, hook) :: list, created)
    | none => do
      let hook ← create c.1
      let (list, created) ← get_or_create_webhooks webhooksOf create rest
      Except.ok ((c.2, hook) :: list, c.1 :: created)

/-! ### Session startup (the prologue of `listen_irc`) -/

/-- The two session maps the event loop runs with, plus the creations made
while provisioning. -/
structure SessionState where
  bridged_channels : List (ChannelId × String)
  bridge_webhooks : List (String × Webhook)
  created : List ChannelId
deriving DecidableEq, Repr

/-- The startup sequence of `listen_irc` before the loop: resolve the
channel mapping, provision the webhooks; each `?` propagates the first
failure, so an error here means the event loop is never entered. -/
def listen_irc_startup
    (listChannels : Except String (List (ChannelId × GuildChannel)))
    (webhooksOf : ChannelId → Except String (List Webhook))
    (create : ChannelId → Except String Webhook) :
    Except String SessionState := do
  let bridged ← get_bridged_channels_call listChannels
  let (hooks, created) ← get_or_create_webhooks webhooksOf create bridged
  Except.ok ⟨bridged, hooks, created⟩

/-! ### The `write` slash command -/

/-- Observable outcome of one invocation of the `write` command: the echo
calls made (`ctx.say`), the broadcast send calls attempted with their
payload (`tx.send`), and whether the command returned `Ok`.  `say_ok` and
`send_ok` are the collaborator results; a failed call makes the following
`?` return the error, so a say failure prevents the send call. -/
structure WriteOutcome where
  sayCalls : List String
  sendCalls : List CMessage
  ok : Bool
deriving DecidableEq, Repr

/-- The `write` command body: `ctx.say(&msg).await?` then
`ctx.data().tx.send(CMessage { channel: ctx.channel_id(), message: msg })?`. -/
def write (channel_id : ChannelId) (msg : String) (say_ok : Bool) (send_ok : Bool) :
    WriteOutcome :=
  if say_ok then
    if send_ok then ⟨[msg], [⟨channel_id, msg⟩], true⟩
    else ⟨[msg], [⟨channel_id, msg⟩], false⟩
  else ⟨[], [], false⟩

/-! ### Helper notions used only in theorem statements -/

/-- Value of one lowercase-hex digit character. -/
def hexCharVal (c : Char) : Nat :=
  if 97 ≤ c.toNat then c.toNat - 87 else c.toNat - 48

/-- Value denoted by a big-endian string of lowercase-hex digit chars. -/
def hexListVal (l : List Char) : Nat :=
  l.foldl (fun a c => 16 * a + hexCharVal c) 0

/-- Recognizer for a lowercase hexadecimal digit character. -/
def isLowerHexDigit (c : Char) : Bool :=
  (48 ≤ c.toNat && c.toNat ≤ 57) || (97 ≤ c.toNat && c.toNat ≤ 102)

/-- First-match lookup of a bridged channel id by display name: the
panic-free content of `get_correct_channel` (reverse lookup name → id). -/
def lookupByName (name : String) (l : List (ChannelId × String)) : Option ChannelId :=
  match l with
  | [] => none
  | b :: tl => if b.2 = name then some b.1 else lookupByName name tl

/-- The pure result of `get_or_create_webhooks` when no collaborator call
fails: the name-keyed webhook map and the list of channel ids that needed a
creation call. -/
def provisionPure (existing : ChannelId → List Webhook) (mk : ChannelId → Webhook)
    (channels : List (ChannelId × String)) : List (String × Webhook) × List ChannelId :=
  match channels with
  | [] => ([], [])
  | c :: rest =>
    let r := provisionPure existing mk rest
    match find_irc_hook (existing c.1) with
    | some hook => ((c.2, hook) :: r.1, r.2)
    | none => ((c.2, mk c.1) :: r.1, c.1 :: r.2)

/-! ### Lemmas: CRC-32 stays below 2^32 -/

theorem crc32Step_lt {x : Nat} (hx : x < 2 ^ 32) : crc32Step x < 2 ^ 32 := by
  unfold crc32Step
  have hhalf : x / 2 < 2 ^ 32 := lt_of_le_of_lt (Nat.div_le_self x 2) hx
  split
  · exact Nat.bitwise_lt hhalf (by norm_num)
  · exact hhalf

theorem crc32Step_iter_lt (k : Nat) {x : Nat} (hx : x < 2 ^ 32) :
    (crc32Step^[k]) x < 2 ^ 32 := by
  induction k generalizing x with
  | zero => simpa using hx
  | succ k ih =>
    rw [Function.iterate_succ_apply]
    exact ih (crc32Step_lt hx)

theorem crc32Byte_lt {x b : Nat} (hx : x < 2 ^ 32) (hb : b < 2 ^ 32) :
    crc32Byte x b < 2 ^ 32 := by
  unfold crc32Byte
  exact crc32Step_iter_lt 8 (Nat.bitwise_lt hx hb)

theorem crc32_foldl_lt {bytes : List Nat} {a : Nat} (ha : a < 2 ^ 32)
    (hb : ∀ b ∈ bytes, b < 2 ^ 32) : bytes.foldl crc32Byte a < 2 ^ 32 := by
  induction bytes generalizing a with
  | nil => simpa using ha
  | cons x tl ih =>
    simp only [List.foldl_cons]
    exact ih (crc32Byte_lt ha (hb x (by simp))) (fun b hbmem => hb b (by simp [hbmem]))

theorem crc32_lt {bytes : List Nat} (hb : ∀ b ∈ bytes, b < 2 ^ 32) :
    crc32 bytes < 2 ^ 32 := by
  unfold crc32
  exact Nat.bitwise_lt (crc32_foldl_lt (by norm_num) hb) (by norm_num)

theorem char_toNat_lt (c : Char) : c.toNat < 1114112 := by
  rcases c.valid with h | ⟨_, h2⟩
  · exact lt_trans (by exact_mod_cast h) (by norm_num)
  · exact_mod_cast h2

theorem utf8Char_lt (c : Char) : ∀ b ∈ utf8Char c, b < 2 ^ 32 := by
  intro b hb
  have hval : c.toNat < 1114112 := char_toNat_lt c
  simp only [utf8Char] at hb
  split at hb
  · simp only [List.mem_singleton] at hb
    omega
  · split at hb
    · simp only [List.mem_cons, List.mem_singleton, List.not_mem_nil, or_false] at hb
      rcases hb with hb | hb <;> subst hb
      · have h6 : c.toNat >>> 6 < 2 ^ 8 := by
          rw [Nat.shiftRight_eq_div_pow]; omega
        calc 0xC0 ||| (c.toNat >>> 6) < 2 ^ 8 := Nat.bitwise_lt (by norm_num) h6
          _ < 2 ^ 32 := by norm_num
      · have h6 : c.toNat &&& 0x3F < 2 ^ 8 :=
          lt_of_le_of_lt (Nat.and_le_right) (by norm_num)
        calc 0x80 ||| (c.toNat &&& 0x3F) < 2 ^ 8 := Nat.bitwise_lt (by norm_num) h6
          _ < 2 ^ 32 := by norm_num
    · split at hb
      all_goals
        simp only [List.mem_cons, List.mem_singleton, List.not_mem_nil, or_false] at hb
      · rcases hb with hb | hb | hb <;> subst hb
        · have h12 : c.toNat >>> 12 < 2 ^ 8 := by
            rw [Nat.shiftRight_eq_div_pow]; omega
          calc 0xE0 ||| (c.toNat >>> 12) < 2 ^ 8 := Nat.bitwise_lt (by norm_num) h12
            _ < 2 ^ 32 := by norm_num
        · have h6 : (c.toNat >>> 6) &&& 0x3F < 2 ^ 8 :=
            lt_of_le_of_lt (Nat.and_le_right) (by norm_num)
          calc 0x80 ||| ((c.toNat >>> 6) &&& 0x3F) < 2 ^ 8 :=
              Nat.bitwise_lt (by norm_num) h6
            _ < 2 ^ 32 := by norm_num
        · have h0 : c.toNat &&& 0x3F < 2 ^ 8 :=
            lt_of_le_of_lt (Nat.and_le_right) (by norm_num)
          calc 0x80 ||| (c.toNat &&& 0x3F) < 2 ^ 8 := Nat.bitwise_lt (by norm_num) h0
            _ < 2 ^ 32 := by norm_num
      · rcases hb with hb | hb | hb | hb <;> subst hb
        · have h18 : c.toNat >>> 18 < 2 ^ 8 := by
            rw [Nat.shiftRight_eq_div_pow]; omega
          calc 0xF0 ||| (c.toNat >>> 18) < 2 ^ 8 := Nat.bitwise_lt (by norm_num) h18
            _ < 2 ^ 32 := by norm_num
        · have h12 : (c.toNat >>> 12) &&& 0x3F < 2 ^ 8 :=
            lt_of_le_of_lt (Nat.and_le_right) (by norm_num)
          calc 0x80 ||| ((c.toNat >>> 12) &&& 0x3F) < 2 ^ 8 :=
              Nat.bitwise_lt (by norm_num) h12
            _ < 2 ^ 32 := by norm_num
        · have h6 : (c.toNat >>> 6) &&& 0x3F < 2 ^ 8 :=
            lt_of_le_of_lt (Nat.and_le_right) (by norm_num)
          calc 0x80 ||| ((c.toNat >>> 6) &&& 0x3F) < 2 ^ 8 :=
              Nat.bitwise_lt (by norm_num) h6
            _ < 2 ^ 32 := by norm_num
        · have h0 : c.toNat &&& 0x3F < 2 ^ 8 :=
            lt_of_le_of_lt (Nat.and_le_right) (by norm_num)
          calc 0x80 ||| (c.toNat &&& 0x3F) < 2 ^ 8 := Nat.bitwise_lt (by norm_num) h0
            _ < 2 ^ 32 := by norm_num

theorem strBytes_lt (s : String) : ∀ b ∈ strBytes s, b < 2 ^ 32 := by
  intro b hb
  unfold strBytes at hb
  rw [List.mem_flatMap] at hb
  obtain ⟨c, _, hbc⟩ := hb
  exact utf8Char_lt c b hbc

theorem get_color_from_name_lt (name : String) : get_color_from_name name < 2 ^ 24 := by
  unfold get_color_from_name
  have h := crc32_lt (strBytes_lt name)
  rw [Nat.shiftRight_eq_div_pow]
  omega

/-! ### Lemmas: hexadecimal formatting -/

theorem hexDigitsF_fuel : ∀ n f1 f2, n < f1 → n < f2 → hexDigitsF f1 n = hexDigitsF f2 n := by
  intro n
  induction n using Nat.strong_induction_on with
  | _ n ih =>
    intro f1 f2 h1 h2
    match f1, f2 with
    | g1 + 1, g2 + 1 =>
      simp only [hexDigitsF]
      by_cases h : n < 16
      · simp [h]
      · simp only [h, if_false]
        have hlt : n / 16 < n := Nat.div_lt_self (by omega) (by omega)
        rw [ih (n / 16) hlt g1 g2 (by omega) (by omega)]

theorem hexDigits_small {n : Nat} (h : n < 16) : hexDigits n = [hexChar n] := by
  unfold hexDigits hexDigitsF
  simp [h]

theorem hexDigits_large {n : Nat} (h : ¬ n < 16) :
    hexDigits n = hexDigits (n / 16) ++ [hexChar (n % 16)] := by
  unfold hexDigits
  have hstep : hexDigitsF (n + 1) n = hexDigitsF n (n / 16) ++ [hexChar (n % 16)] := by
    simp only [hexDigitsF, h, if_false]
  rw [hstep]
  have hlt : n / 16 < n := Nat.div_lt_self (by omega) (by omega)
  rw [hexDigitsF_fuel (n / 16) n (n / 16 + 1) (by omega) (by omega)]

theorem hexCharVal_hexChar : ∀ d, d < 16 → hexCharVal (hexChar d) = d := by decide

theorem isLowerHexDigit_hexChar : ∀ d, d < 16 → isLowerHexDigit (hexChar d) = true := by
  decide

theorem hexDigits_length_le : ∀ k n, n < 16 ^ (k + 1) → (hexDigits n).length ≤ k + 1 := by
  intro k
  induction k with
  | zero =>
    intro n hn
    rw [hexDigits_small (by omega)]
    simp
  | succ k ih =>
    intro n hn
    by_cases h : n < 16
    · rw [hexDigits_small h]; simp
    · rw [hexDigits_large h]
      have hdiv : n / 16 < 16 ^ (k + 1) := by
        rw [Nat.div_lt_iff_lt_mul (by norm_num)]
        calc n < 16 ^ (k + 1 + 1) := hn
          _ = 16 ^ (k + 1) * 16 := by ring
      have := ih (n / 16) hdiv
      simp only [List.length_append, List.length_singleton]
      omega

theorem hexDigits_chars : ∀ n c, c ∈ hexDigits n → isLowerHexDigit c = true := by
  intro n
  induction n using Nat.strong_induction_on with
  | _ n ih =>
    intro c hc
    by_cases h : n < 16
    · rw [hexDigits_small h] at hc
      simp only [List.mem_singleton] at hc
      subst hc
      exact isLowerHexDigit_hexChar n h
    · rw [hexDigits_large h] at hc
      rcases List.mem_append.mp hc with hmem | hmem
      · exact ih (n / 16) (Nat.div_lt_self (by omega) (by omega)) c hmem
      · simp only [List.mem_singleton] at hmem
        subst hmem
        exact isLowerHexDigit_hexChar (n % 16) (Nat.mod_lt n (by omega))

theorem hexListVal_foldl (l : List Char) (a : Nat) :
    l.foldl (fun a c => 16 * a + hexCharVal c) a = a * 16 ^ l.length + hexListVal l := by
  induction l generalizing a with
  | nil => simp [hexListVal]
  | cons c tl ih =>
    have h2 : hexListVal (c :: tl) = hexCharVal c * 16 ^ tl.length + hexListVal tl := by
      show List.foldl (fun a c => 16 * a + hexCharVal c) 0 (c :: tl) = _
      simp only [List.foldl_cons]
      rw [ih (16 * 0 + hexCharVal c)]
      ring
    simp only [List.foldl_cons, List.length_cons]
    rw [ih (16 * a + hexCharVal c), h2]
    ring

theorem hexListVal_hexDigits : ∀ n, hexListVal (hexDigits n) = n := by
  intro n
  induction n using Nat.strong_induction_on with
  | _ n ih =>
    by_cases h : n < 16
    · rw [hexDigits_small h]
      unfold hexListVal
      simp [hexCharVal_hexChar n h]
    · rw [hexDigits_large h]
      unfold hexListVal
      rw [List.foldl_append]
      have hrec := ih (n / 16) (Nat.div_lt_self (by omega) (by omega))
      unfold hexListVal at hrec
      rw [hrec]
      simp only [List.foldl_cons, List.foldl_nil]
      rw [hexCharVal_hexChar (n % 16) (Nat.mod_lt n (by omega))]
      omega

theorem hexListVal_replicate_zero (k : Nat) (l : List Char) :
    hexListVal (List.replicate k '0' ++ l) = hexListVal l := by
  induction k with
  | zero => simp
  | succ k ih =>
    rw [List.replicate_succ, List.cons_append]
    unfold hexListVal at ih ⊢
    simp only [List.foldl_cons]
    have h0 : 16 * 0 + hexCharVal '0' = 0 := by decide
    rw [h0]
    exact ih

theorem format_hex06_length {n : Nat} (hn : n < 16 ^ 6) :
    (format_hex06 n).length = 6 := by
  have hlen : (hexDigits n).length ≤ 6 := hexDigits_length_le 5 n (by norm_num at hn ⊢; omega)
  unfold format_hex06
  simp only [String.length, List.length_append, List.length_replicate]
  omega

theorem format_hex06_chars (n : Nat) :
    ∀ c ∈ (format_hex06 n).data, isLowerHexDigit c = true := by
  intro c hc
  unfold format_hex06 at hc
  simp only at hc
  rcases List.mem_append.mp hc with hmem | hmem
  · rw [List.eq_of_mem_replicate hmem]
    decide
  · exact hexDigits_chars n c hmem

theorem format_hex06_val (n : Nat) : hexListVal (format_hex06 n).data = n := by
  unfold format_hex06
  simp only
  rw [hexListVal_replicate_zero]
  exact hexListVal_hexDigits n

/-! ### Lemmas: channel-name lookups -/

theorem slice_from_one_cons {channel : String} {c : Char} {rest : List Char}
    (hch : channel.data = c :: rest) (hc : c.toNat < 128) :
    slice_from_one channel = some (String.mk rest) := by
  unfold slice_from_one
  rw [hch]
  simp [hc]

theorem slice_from_one_nil {channel : String} (hch : channel.data = []) :
    slice_from_one channel = none := by
  unfold slice_from_one
  rw [hch]

theorem get_correct_webhook_eq_lookup {channel : String} {c : Char} {rest : List Char}
    (hch : channel.data = c :: rest) (hc : c.toNat < 128)
    (hooks : List (String × Webhook)) :
    get_correct_webhook channel hooks = some (List.lookup (String.mk rest) hooks) := by
  induction hooks with
  | nil => rfl
  | cons b tl ih =>
    obtain ⟨k, v⟩ := b
    unfold get_correct_webhook
    rw [slice_from_one_cons hch hc]
    simp only [List.lookup]
    by_cases he : k = String.mk rest
    · simp [he]
    · have hbeq : (String.mk rest == k) = false := by
        simp [BEq.beq]
        exact fun hcontra => he hcontra.symm
      simp [he, hbeq, ih]

theorem get_correct_channel_eq_lookupByName {channel : String} {c : Char} {rest : List Char}
    (hch : channel.data = c :: rest) (hc : c.toNat < 128)
    (bridged : List (ChannelId × String)) :
    get_correct_channel channel bridged = some (lookupByName (String.mk rest) bridged) := by
  induction bridged with
  | nil => rfl
  | cons b tl ih =>
    unfold get_correct_channel lookupByName
    rw [slice_from_one_cons hch hc]
    by_cases he : b.2 = String.mk rest
    · simp [he]
    · simp [he, ih]

theorem lookup_none_iff_keys {α β : Type} [BEq α] [LawfulBEq α] (k : α) (l : List (α × β)) :
    List.lookup k l = none ↔ ∀ p ∈ l, p.1 ≠ k := by
  induction l with
  | nil => simp
  | cons b tl ih =>
    obtain ⟨k2, v⟩ := b
    simp only [List.lookup]
    by_cases h : k = k2
    · subst h
      simp
    · have hbeq : (k == k2) = false := by simp [h]
      rw [hbeq]
      simp only [List.mem_cons]
      constructor
      · intro hnone p hp
        rcases hp with hp | hp
        · subst hp; simpa using fun hcontra => h hcontra.symm
        · exact (ih.mp hnone) p hp
      · intro hall
        exact ih.mpr (fun p hp => hall p (Or.inr hp))

theorem lookupByName_none_iff (name : String) (l : List (ChannelId × String)) :
    lookupByName name l = none ↔ ∀ p ∈ l, p.2 ≠ name := by
  induction l with
  | nil => simp [lookupByName]
  | cons b tl ih =>
    unfold lookupByName
    by_cases h : b.2 = name
    · simp [h]
    · simp only [h, if_false, List.mem_cons]
      constructor
      · intro hnone p hp
        rcases hp with hp | hp
        · subst hp; exact h
        · exact (ih.mp hnone) p hp
      · intro hall
        exact ih.mpr (fun p hp => hall p (Or.inr hp))

theorem lookupByName_some_mem {name : String} {l : List (ChannelId × String)} {cid : ChannelId}
    (h : lookupByName name l = some cid) : (cid, name) ∈ l := by
  induction l with
  | nil => simp [lookupByName] at h
  | cons b tl ih =>
    unfold lookupByName at h
    by_cases he : b.2 = name
    · simp only [he, if_true, Option.some_inj] at h
      subst h
      have hpair : (b.1, name) = b := by rw [← he]
      rw [hpair]
      exact List.mem_cons_self b tl
    · simp only [he, if_false] at h
      exact List.mem_cons_of_mem b (ih h)

theorem lookup_some_mem {α β : Type} [BEq α] [LawfulBEq α] {k : α} {l : List (α × β)} {v : β}
    (h : List.lookup k l = some v) : (k, v) ∈ l := by
  induction l with
  | nil => simp [List.lookup] at h
  | cons b tl ih =>
    obtain ⟨k2, v2⟩ := b
    simp only [List.lookup] at h
    by_cases he : k = k2
    · subst he
      simp only [beq_self_eq_true] at h
      injection h with h
      subst h
      simp
    · have hbeq : (k == k2) = false := by simp [he]
      rw [hbeq] at h
      exact List.mem_cons_of_mem _ (ih h)

/-! ### Lemmas: relay-identity provisioning -/

theorem find_irc_hook_name : ∀ (hooks : List Webhook) (h : Webhook),
    find_irc_hook hooks = some h → h.name = some "irc" := by
  intro hooks
  induction hooks with
  | nil => intro h hf; simp [find_irc_hook] at hf
  | cons hook tl ih =>
    intro h hf
    unfold find_irc_hook at hf
    cases hn : hook.name with
    | none => rw [hn] at hf; exact ih h hf
    | some nm =>
      rw [hn] at hf
      by_cases he : nm = "irc"
      · simp only [he, if_true, Option.some_inj] at hf
        subst hf
        rw [hn, he]
      · simp only [he, if_false] at hf
        exact ih h hf

theorem find_irc_hook_cons (hook : Webhook) (tl : List Webhook) :
    find_irc_hook (hook :: tl) =
      match hook.name with
      | some nm => if nm = "irc" then some hook else find_irc_hook tl
      | none => find_irc_hook tl := rfl

theorem find_irc_hook_append (l1 l2 : List Webhook) :
    find_irc_hook (l1 ++ l2) =
      match find_irc_hook l1 with
      | some h => some h
      | none => find_irc_hook l2 := by
  induction l1 with
  | nil => simp [find_irc_hook]
  | cons hook tl ih =>
    rw [List.cons_append, find_irc_hook_cons]
    conv_rhs => rw [find_irc_hook_cons]
    cases hn : hook.name with
    | none => exact ih
    | some nm =>
      by_cases he : nm = "irc"
      · simp [he]
      · simp only [he, if_false]
        exact ih

theorem except_bind_ok {A B : Type} (x : A) (f : A → Except String B) :
    (Except.ok x : Except String A) >>= f = f x := rfl

theorem except_bind_error {A B : Type} (e : String) (f : A → Except String B) :
    (Except.error e : Except String A) >>= f = (Except.error e : Except String B) := rfl

theorem get_or_create_webhooks_ok (existing : ChannelId → List Webhook)
    (mk : ChannelId → Webhook) (channels : List (ChannelId × String)) :
    get_or_create_webhooks (fun c => Except.ok (existing c)) (fun c => Except.ok (mk c)) channels
      = Except.ok (provisionPure existing mk channels) := by
  induction channels with
  | nil => rfl
  | cons c rest ih =>
    unfold get_or_create_webhooks provisionPure
    simp only [except_bind_ok]
    cases hf : find_irc_hook (existing c.1) with
    | some hook => simp [hf, ih, except_bind_ok]
    | none => simp [hf, ih, except_bind_ok]

theorem provisionPure_keys (existing : ChannelId → List Webhook) (mk : ChannelId → Webhook)
    (channels : List (ChannelId × String)) :
    (provisionPure existing mk channels).1.map Prod.fst = channels.map Prod.snd := by
  induction channels with
  | nil => rfl
  | cons c rest ih =>
    unfold provisionPure
    cases hf : find_irc_hook (existing c.1) with
    | some hook => simpa using ih
    | none => simpa using ih

theorem provisionPure_created_iff (existing : ChannelId → List Webhook)
    (mk : ChannelId → Webhook) (channels : List (ChannelId × String)) (cid : ChannelId) :
    cid ∈ (provisionPure existing mk channels).2 ↔
      (∃ cname, (cid, cname) ∈ channels) ∧ find_irc_hook (existing cid) = none := by
  induction channels with
  | nil => simp [provisionPure]
  | cons c rest ih =>
    unfold provisionPure
    cases hf : find_irc_hook (existing c.1) with
    | some hook =>
      simp only []
      rw [ih]
      constructor
      · rintro ⟨⟨cname, hmem⟩, hnone⟩
        exact ⟨⟨cname, List.mem_cons_of_mem c hmem⟩, hnone⟩
      · rintro ⟨⟨cname, hmem⟩, hnone⟩
        rcases List.mem_cons.mp hmem with heq | hmem2
        · exfalso
          have : c.1 = cid := by rw [← heq]
          rw [this] at hf
          rw [hf] at hnone
          cases hnone
        · exact ⟨⟨cname, hmem2⟩, hnone⟩
    | none =>
      simp only [List.mem_cons]
      rw [ih]
      constructor
      · rintro (heq | ⟨⟨cname, hmem⟩, hnone⟩)
        · subst heq
          exact ⟨⟨c.2, Or.inl Prod.mk.eta⟩, hf⟩
        · exact ⟨⟨cname, Or.inr hmem⟩, hnone⟩
      · rintro ⟨⟨cname, hmem⟩, hnone⟩
        rcases hmem with heq | hmem2
        · exact Or.inl (congrArg Prod.fst heq)
        · exact Or.inr ⟨⟨cname, hmem2⟩, hnone⟩

theorem provisionPure_reuse_mem {existing : ChannelId → List Webhook}
    {mk : ChannelId → Webhook} {channels : List (ChannelId × String)}
    {cid : ChannelId} {cname : String} {hook : Webhook}
    (hmem : (cid, cname) ∈ channels) (hfind : find_irc_hook (existing cid) = some hook) :
    (cname, hook) ∈ (provisionPure existing mk channels).1 := by
  induction channels with
  | nil => cases hmem
  | cons c rest ih =>
    unfold provisionPure
    rcases List.mem_cons.mp hmem with heq | hmem2
    · have h1 : c.1 = cid := by rw [← heq]
      have h2 : c.2 = cname := by rw [← heq]
      rw [h1, hfind]
      simp [h2]
    · cases hf : find_irc_hook (existing c.1) with
      | some hook2 => exact List.mem_cons_of_mem _ (ih hmem2)
      | none => exact List.mem_cons_of_mem _ (ih hmem2)

theorem provisionPure_second_no_creation (existing : ChannelId → List Webhook)
    (mk mk2 : ChannelId → Webhook) (channels : List (ChannelId × String))
    (hmk : ∀ c, (mk c).name = some "irc") :
    (provisionPure
      (fun c => if c ∈ (provisionPure existing mk channels).2
                then existing c ++ [mk c] else existing c)
      mk2 channels).2 = [] := by
  rw [List.eq_nil_iff_forall_not_mem]
  intro cid hmem
  rw [provisionPure_created_iff] at hmem
  obtain ⟨⟨cname, hcmem⟩, hnone⟩ := hmem
  by_cases hcr : cid ∈ (provisionPure existing mk channels).2
  · have hfirst : find_irc_hook (existing cid) = none :=
      ((provisionPure_created_iff existing mk channels cid).mp hcr).2
    rw [if_pos hcr, find_irc_hook_append, hfirst] at hnone
    have hone : find_irc_hook [mk cid] = some (mk cid) := by
      rw [find_irc_hook_cons, hmk cid]
      simp
    simp [hone] at hnone
  · rw [if_neg hcr] at hnone
    exact hcr ((provisionPure_created_iff existing mk channels cid).mpr ⟨⟨cname, hcmem⟩, hnone⟩)

theorem get_or_create_webhooks_ok_calls
    {webhooksOf : ChannelId → Except String (List Webhook)}
    {create : ChannelId → Except String Webhook}
    {channels : List (ChannelId × String)}
    {r : List (String × Webhook) × List ChannelId}
    (h : get_or_create_webhooks webhooksOf create channels = Except.ok r) :
    ∀ p ∈ channels, ∃ hooks, webhooksOf p.1 = Except.ok hooks ∧
      (find_irc_hook hooks = none → ∃ hk, create p.1 = Except.ok hk) := by
  induction channels generalizing r with
  | nil => intro p hp; cases hp
  | cons c rest ih =>
    intro p hp
    unfold get_or_create_webhooks at h
    cases hw : webhooksOf c.1 with
    | error e =>
      rw [hw] at h
      rw [except_bind_error] at h
      cases h
    | ok hooks =>
      rw [hw, except_bind_ok] at h
      rcases List.mem_cons.mp hp with heq | hp2
      · subst heq
        refine ⟨hooks, hw, ?_⟩
        intro hfnone
        rw [hfnone] at h
        cases hc : create p.1 with
        | error e =>
          rw [hc, except_bind_error] at h
          cases h
        | ok hk => exact ⟨hk, rfl⟩
      · cases hf : find_irc_hook hooks with
        | some hook =>
          rw [hf] at h
          cases hrec : get_or_create_webhooks webhooksOf create rest with
          | error e =>
            rw [hrec] at h
            simp [except_bind_error] at h
          | ok r2 => exact ih hrec p hp2
        | none =>
          rw [hf] at h
          cases hc : create c.1 with
          | error e =>
            rw [hc, except_bind_error] at h
            cases h
          | ok hk =>
            rw [hc, except_bind_ok] at h
            cases hrec : get_or_create_webhooks webhooksOf create rest with
            | error e =>
              rw [hrec] at h
              simp [except_bind_error] at h
            | ok r2 => exact ih hrec p hp2

/-! ### Claim theorems -/

/-- Claim C1: an inbound IRC chat line on a channel whose name minus the
leading hash is a key of the webhook map makes exactly one post call through
that webhook, with username the sender nick (or the literal "null" when the
nick is absent) and content the message body verbatim; a chat line whose
stripped channel name is not a key makes zero post calls. -/
theorem privmsg_routing (channel text : String) (nick : Option String)
    (hooks : List (String × Webhook)) (bridged : List (ChannelId × String))
    (rest : List Char) (hch : channel.data = '#' :: rest) :
    (∀ h : Webhook, List.lookup (String.mk rest) hooks = some h →
      handle_irc_message ⟨.privmsg channel text, nick⟩ hooks bridged =
        some ⟨[(h, ⟨nick.getD "null", text, avatar_url_for (nick.getD "null")⟩)], []⟩) ∧
    (List.lookup (String.mk rest) hooks = none →
      handle_irc_message ⟨.privmsg channel text, nick⟩ hooks bridged =
        some ⟨[], []⟩) ∧
    (List.lookup (String.mk rest) hooks = none ↔ ∀ p ∈ hooks, p.1 ≠ String.mk rest) := by
  have hlk := get_correct_webhook_eq_lookup hch (by decide) hooks
  refine ⟨?_, ?_, lookup_none_iff_keys _ _⟩
  · intro h hsome
    simp only [handle_irc_message]
    rw [hlk, hsome]
  · intro hnone
    simp only [handle_irc_message]
    rw [hlk, hnone]

/-- Witness for C1 at concrete inputs: channel `#general` mapped, channel
`#offtopic` unmapped. -/
theorem privmsg_routing_witness :
    handle_irc_message ⟨.privmsg "#general" "hello world", some "alice"⟩
        [("general", ⟨some "irc", 7⟩)] [] =
      some ⟨[(⟨some "irc", 7⟩,
        ⟨"alice", "hello world", avatar_url_for "alice"⟩)], []⟩ ∧
    handle_irc_message ⟨.privmsg "#offtopic" "hello world", some "alice"⟩
        [("general", ⟨some "irc", 7⟩)] [] = some ⟨[], []⟩ := by
  have h1 := privmsg_routing "#general" "hello world" (some "alice")
      [("general", ⟨some "irc", 7⟩)] [] "general".data (by rfl)
  have h2 := privmsg_routing "#offtopic" "hello world" (some "alice")
      [("general", ⟨some "irc", 7⟩)] [] "offtopic".data (by rfl)
  exact ⟨h1.1 ⟨some "irc", 7⟩ (by rfl), h2.2.1 (by rfl)⟩

/-- Claim C2: a BridgeMessage whose destination channel id is a key of the
channel mapping results in exactly one IRC send targeting the hash-prefixed
mapped display name with the body as text; an unmapped destination results
in zero sends. -/
theorem bridge_message_routing (msg : CMessage) (bridged : List (ChannelId × String)) :
    (∀ c : String, List.lookup msg.channel bridged = some c →
      handle_bridge_message msg bridged = [⟨"#" ++ c, msg.message⟩]) ∧
    (List.lookup msg.channel bridged = none →
      handle_bridge_message msg bridged = []) ∧
    (List.lookup msg.channel bridged = none ↔ ∀ p ∈ bridged, p.1 ≠ msg.channel) := by
  refine ⟨?_, ?_, lookup_none_iff_keys _ _⟩
  · intro c hsome
    unfold handle_bridge_message
    rw [hsome]
  · intro hnone
    unfold handle_bridge_message
    rw [hnone]

/-- Witness for C2 at concrete inputs: destination 100 mapped to
"general", destination 101 unmapped. -/
theorem bridge_message_routing_witness :
    handle_bridge_message ⟨100, "yo"⟩ [(100, "general")] = [⟨"#general", "yo"⟩] ∧
    handle_bridge_message ⟨101, "yo"⟩ [(100, "general")] = [] :=
  ⟨(bridge_message_routing ⟨100, "yo"⟩ [(100, "general")]).1 "general" (by rfl),
   (bridge_message_routing ⟨101, "yo"⟩ [(100, "general")]).2.1 (by rfl)⟩

/-- Claim C6: an inbound IRC topic change whose stripped channel name
reverse-maps to a guild channel id makes one topic edit on that channel,
setting the new text and the empty string when the IRC topic is absent;
with no reverse mapping, no edit call is made. -/
theorem topic_routing (channel : String) (text : Option String) (nick : Option String)
    (hooks : List (String × Webhook)) (bridged : List (ChannelId × String))
    (rest : List Char) (hch : channel.data = '#' :: rest) :
    (∀ cid : ChannelId, lookupByName (String.mk rest) bridged = some cid →
      handle_irc_message ⟨.topicCmd channel text, nick⟩ hooks bridged =
        some ⟨[], [⟨cid, text.getD ""⟩]⟩ ∧ (cid, String.mk rest) ∈ bridged) ∧
    (text = none → ∀ cid : ChannelId, lookupByName (String.mk rest) bridged = some cid →
      handle_irc_message ⟨.topicCmd channel text, nick⟩ hooks bridged =
        some ⟨[], [⟨cid, ""⟩]⟩) ∧
    (lookupByName (String.mk rest) bridged = none →
      handle_irc_message ⟨.topicCmd channel text, nick⟩ hooks bridged = some ⟨[], []⟩) ∧
    (lookupByName (String.mk rest) bridged = none ↔ ∀ p ∈ bridged, p.2 ≠ String.mk rest) := by
  have hlk := get_correct_channel_eq_lookupByName hch (by decide) bridged
  refine ⟨?_, ?_, ?_, lookupByName_none_iff _ _⟩
  · intro cid hsome
    constructor
    · simp only [handle_irc_message]
      rw [hlk, hsome]
    · exact lookupByName_some_mem hsome
  · intro htext cid hsome
    subst htext
    simp only [handle_irc_message]
    rw [hlk, hsome]
    rfl
  · intro hnone
    simp only [handle_irc_message]
    rw [hlk, hnone]

/-- Witness for C6 at concrete inputs: topic cleared on mapped `#general`
sets the empty string; unmapped `#offtopic` makes no edit. -/
theorem topic_routing_witness :
    handle_irc_message ⟨.topicCmd "#general" none, none⟩ [] [(100, "general")] =
      some ⟨[], [⟨100, ""⟩]⟩ ∧
    handle_irc_message ⟨.topicCmd "#offtopic" (some "t"), none⟩ [] [(100, "general")] =
      some ⟨[], []⟩ := by
  have h1 := topic_routing "#general" none none [] [(100, "general")]
      "general".data (by rfl)
  have h2 := topic_routing "#offtopic" (some "t") none [] [(100, "general")]
      "offtopic".data (by rfl)
  exact ⟨h1.2.1 rfl 100 (by rfl), h2.2.2.1 (by rfl)⟩

/-- Claim C9: the write command echoes the message to the invoking channel
and publishes one BridgeMessage carrying the invoking channel id and the
body; when the publish fails the command returns an error (not a crash)
while the echo has already been posted; a failed echo prevents the publish. -/
theorem write_command_spec (cid : ChannelId) (msg : String) (send_ok : Bool) :
    write cid msg true send_ok = ⟨[msg], [⟨cid, msg⟩], send_ok⟩ ∧
    write cid msg false send_ok = ⟨[], [], false⟩ := by
  cases send_ok <;> exact ⟨rfl, rfl⟩

/-- Claim C10: the lookup strips the first byte of the channel string
whether or not it is a hash; the slice of the empty string panics; under
the precondition that the channel is non-empty with a single-byte first
char both lookups are total, and without it the webhook lookup panics on
any non-empty map. -/
theorem channel_slice_safety (channel : String) :
    (∀ c rest, channel.data = c :: rest → c.toNat < 128 →
      slice_from_one channel = some (String.mk rest)) ∧
    slice_from_one "" = none ∧
    (∀ c rest, channel.data = c :: rest → c.toNat < 128 →
      ∀ (hooks : List (String × Webhook)) (bridged : List (ChannelId × String)),
        (get_correct_webhook channel hooks).isSome = true ∧
        (get_correct_channel channel bridged).isSome = true) ∧
    (channel.data = [] → ∀ hooks : List (String × Webhook), hooks ≠ [] →
      get_correct_webhook channel hooks = none) := by
  refine ⟨fun c rest hch hc => slice_from_one_cons hch hc, rfl, ?_, ?_⟩
  · intro c rest hch hc hooks bridged
    rw [get_correct_webhook_eq_lookup hch hc, get_correct_channel_eq_lookupByName hch hc]
    exact ⟨rfl, rfl⟩
  · intro hnil hooks hne
    cases hooks with
    | nil => exact absurd rfl hne
    | cons b tl =>
      unfold get_correct_webhook
      rw [slice_from_one_nil hnil]

/-- Witness for C10 at concrete inputs: a channel without a leading hash
still loses its first byte; the empty channel with a non-empty map hits the
panic. -/
theorem channel_slice_safety_witness :
    slice_from_one "general" = some "eneral" ∧
    get_correct_webhook "" [("g", ⟨none, 0⟩)] = none := by
  have h1 := (channel_slice_safety "general").1 'g' "eneral".data (by rfl) (by decide)
  have h2 := (channel_slice_safety "").2.2.2 rfl [("g", ⟨none, 0⟩)] (by simp)
  exact ⟨h1, h2⟩

/-- Claim C8: when no category-type channel named "irc" exists, resolution
returns successfully with an empty mapping, not an error. -/
theorem no_irc_category_empty_mapping (channels : List (ChannelId × GuildChannel))
    (h : ∀ x ∈ channels, ¬(x.2.kind = ChannelKind.category ∧ x.2.name = "irc")) :
    get_bridged_channels channels = [] ∧
    get_bridged_channels_call (Except.ok channels) = Except.ok [] := by
  have hfil : (channels.filter (fun x => x.2.kind == ChannelKind.category)).filter
      (fun x => x.2.name == "irc") = [] := by
    rw [List.filter_filter, List.filter_eq_nil_iff]
    intro a ha
    simp only [Bool.and_eq_true, beq_iff_eq]
    rintro ⟨hn, hk⟩
    exact h a ha ⟨hk, hn⟩
  have h1 : get_bridged_channels channels = [] := by
    simp only [get_bridged_channels]
    rw [hfil]
    rfl
  refine ⟨h1, ?_⟩
  simp only [get_bridged_channels_call]
  rw [except_bind_ok, h1]

/-- Witness for C8 at a concrete channel list with no "irc" category. -/
theorem no_irc_category_empty_mapping_witness :
    get_bridged_channels [(100, ⟨ChannelKind.text, "general", some 1⟩)] = [] ∧
    get_bridged_channels_call
        (Except.ok [(100, ⟨ChannelKind.text, "general", some 1⟩)]) = Except.ok [] :=
  no_irc_category_empty_mapping _ (by decide)

/-- Claim C4: resolution selects the last category named "irc" in listing
order, and the mapping consists exactly of the channels whose parent is the
selected category, keyed by their own display name. -/
theorem irc_category_selection
    (l1 l2 : List (ChannelId × GuildChannel)) (cat : ChannelId × GuildChannel)
    (hkind : cat.2.kind = ChannelKind.category) (hname : cat.2.name = "irc")
    (hlast : ∀ x ∈ l2, ¬(x.2.kind = ChannelKind.category ∧ x.2.name = "irc")) :
    get_bridged_channels (l1 ++ cat :: l2) =
      ((l1 ++ cat :: l2).filter (fun x =>
          match x.2.parent_id with
          | some p => p == cat.1
          | none => false)).map (fun x => (x.1, x.2.name)) ∧
    (∀ cid nm, (cid, nm) ∈ get_bridged_channels (l1 ++ cat :: l2) ↔
      ∃ g : GuildChannel, (cid, g) ∈ l1 ++ cat :: l2 ∧
        g.parent_id = some cat.1 ∧ g.name = nm) := by
  have hl2 : l2.filter (fun x =>
      x.2.name == "irc" && (x.2.kind == ChannelKind.category)) = [] := by
    rw [List.filter_eq_nil_iff]
    intro a ha
    simp only [Bool.and_eq_true, beq_iff_eq]
    rintro ⟨hn, hk⟩
    exact hlast a ha ⟨hk, hn⟩
  have hfil : ((l1 ++ cat :: l2).filter (fun x => x.2.kind == ChannelKind.category)).filter
      (fun x => x.2.name == "irc") =
      (l1.filter (fun x =>
        x.2.name == "irc" && (x.2.kind == ChannelKind.category))) ++ [cat] := by
    rw [List.filter_filter, List.filter_append, List.filter_cons, hl2]
    simp [hkind, hname]
  have hlastq : (((l1 ++ cat :: l2).filter
      (fun x => x.2.kind == ChannelKind.category)).filter
      (fun x => x.2.name == "irc")).getLast? = some cat := by
    rw [hfil]
    exact List.getLast?_concat _
  have hmain : get_bridged_channels (l1 ++ cat :: l2) =
      ((l1 ++ cat :: l2).filter (fun x =>
          match x.2.parent_id with
          | some p => p == cat.1
          | none => false)).map (fun x => (x.1, x.2.name)) := by
    simp only [get_bridged_channels]
    rw [hlastq]
  refine ⟨hmain, ?_⟩
  intro cid nm
  rw [hmain, List.mem_map]
  constructor
  · rintro ⟨x, hx, hfx⟩
    rw [List.mem_filter] at hx
    obtain ⟨hxl, hq0⟩ := hx
    have hq : (match x.2.parent_id with
      | some p => p == cat.1
      | none => false) = true := hq0
    have hfst : x.1 = cid := congrArg Prod.fst hfx
    have hsnd : x.2.name = nm := congrArg Prod.snd hfx
    refine ⟨x.2, ?_, ?_, hsnd⟩
    · have hx2 : (cid, x.2) = x := by
        rw [← hfst]
      rw [hx2]
      exact hxl
    · cases hpid : x.2.parent_id with
      | none =>
        rw [hpid] at hq
        simp at hq
      | some p =>
        rw [hpid] at hq
        simp only [beq_iff_eq] at hq
        rw [hq]
  · rintro ⟨g, hgl, hpid, hgname⟩
    refine ⟨(cid, g), ?_, ?_⟩
    · rw [List.mem_filter]
      refine ⟨hgl, ?_⟩
      show (match g.parent_id with
        | some p => p == cat.1
        | none => false) = true
      rw [hpid]
      simp
    · simp [hgname]

/-- Witness for C4: two categories named "irc"; the channel under the
second (last) one is kept, the channel under the first is not. -/
theorem irc_category_selection_witness :
    get_bridged_channels
      [(1, ⟨ChannelKind.category, "irc", none⟩),
       (2, ⟨ChannelKind.category, "irc", none⟩),
       (100, ⟨ChannelKind.text, "general", some 2⟩),
       (101, ⟨ChannelKind.text, "dropped", some 1⟩)] = [(100, "general")] := by
  have h := irc_category_selection
      [(1, ⟨ChannelKind.category, "irc", none⟩)]
      [(100, ⟨ChannelKind.text, "general", some 2⟩),
       (101, ⟨ChannelKind.text, "dropped", some 1⟩)]
      (2, ⟨ChannelKind.category, "irc", none⟩) rfl rfl (by decide)
  exact h.1.trans (by rfl)

/-- Claim C3: provisioning reuses a channel's existing webhook labeled
"irc" and performs no creation call for that channel; only the exact label
"irc" is ever recognized as ours; the resulting map has exactly one entry
per mapped channel name; and a second provisioning run over the state left
by the first performs zero creation calls. -/
theorem provision_reuse_and_idempotence
    (existing : ChannelId → List Webhook) (mk mk2 : ChannelId → Webhook)
    (channels : List (ChannelId × String))
    (hmk : ∀ c, (mk c).name = some "irc") :
    get_or_create_webhooks (fun c => Except.ok (existing c)) (fun c => Except.ok (mk c))
        channels = Except.ok (provisionPure existing mk channels) ∧
    (∀ (hooks : List Webhook) (h : Webhook), find_irc_hook hooks = some h →
      h.name = some "irc") ∧
    (∀ cid cname hook, (cid, cname) ∈ channels →
      find_irc_hook (existing cid) = some hook →
      cid ∉ (provisionPure existing mk channels).2 ∧
      (cname, hook) ∈ (provisionPure existing mk channels).1) ∧
    (provisionPure existing mk channels).1.map Prod.fst = channels.map Prod.snd ∧
    (provisionPure
      (fun c => if c ∈ (provisionPure existing mk channels).2
                then existing c ++ [mk c] else existing c)
      mk2 channels).2 = [] := by
  refine ⟨get_or_create_webhooks_ok existing mk channels, find_irc_hook_name, ?_,
    provisionPure_keys existing mk channels,
    provisionPure_second_no_creation existing mk mk2 channels hmk⟩
  intro cid cname hook hmem hfind
  constructor
  · intro hcontra
    rw [provisionPure_created_iff] at hcontra
    obtain ⟨-, hnone⟩ := hcontra
    rw [hfind] at hnone
    simp at hnone
  · exact provisionPure_reuse_mem hmem hfind

/-- Witness for C3: channel 100 already carries webhooks labeled "logger",
nothing, and "irc"; provisioning reuses the "irc" one and creates none. -/
theorem provision_reuse_and_idempotence_witness :
    get_or_create_webhooks
        (fun c => Except.ok (if c = 100 then
          [⟨some "logger", 1⟩, ⟨none, 2⟩, ⟨some "irc", 3⟩] else []))
        (fun c => Except.ok (⟨some "irc", 1000 + c⟩ : Webhook)) [(100, "general")] =
      Except.ok ([("general", ⟨some "irc", 3⟩)], []) ∧
    (100 : ChannelId) ∉ (provisionPure
        (fun c => if c = 100 then
          [⟨some "logger", 1⟩, ⟨none, 2⟩, ⟨some "irc", 3⟩] else [])
        (fun c => ⟨some "irc", 1000 + c⟩) [(100, "general")]).2 := by
  have h := provision_reuse_and_idempotence
      (fun c => if c = 100 then
        [⟨some "logger", 1⟩, ⟨none, 2⟩, ⟨some "irc", 3⟩] else [])
      (fun c => ⟨some "irc", 1000 + c⟩) (fun c => ⟨some "irc", 1000 + c⟩)
      [(100, "general")] (fun c => rfl)
  refine ⟨?_, (h.2.2.1 100 "general" ⟨some "irc", 3⟩ (by simp) (by rfl)).1⟩
  rw [h.1]
  rfl

/-- Claim C5: a failure of the channel listing, of a per-channel webhook
listing, or of a webhook creation makes the whole session startup return
an error, so the event-loop state is never produced; a failure for one
channel aborts provisioning for the whole batch. -/
theorem startup_aborts_on_failure
    (listChannels : Except String (List (ChannelId × GuildChannel)))
    (webhooksOf : ChannelId → Except String (List Webhook))
    (create : ChannelId → Except String Webhook) :
    (∀ e, listChannels = Except.error e →
      listen_irc_startup listChannels webhooksOf create = Except.error e) ∧
    (∀ s, listen_irc_startup listChannels webhooksOf create = Except.ok s →
      ∃ chans, listChannels = Except.ok chans ∧
        s.bridged_channels = get_bridged_channels chans ∧
        ∀ p ∈ s.bridged_channels, ∃ hooks, webhooksOf p.1 = Except.ok hooks ∧
          (find_irc_hook hooks = none → ∃ hk, create p.1 = Except.ok hk)) ∧
    (∀ chans e p, listChannels = Except.ok chans → p ∈ get_bridged_channels chans →
      webhooksOf p.1 = Except.error e →
      ∀ s, listen_irc_startup listChannels webhooksOf create ≠ Except.ok s) ∧
    (∀ chans e p hooks, listChannels = Except.ok chans →
      p ∈ get_bridged_channels chans → webhooksOf p.1 = Except.ok hooks →
      find_irc_hook hooks = none → create p.1 = Except.error e →
      ∀ s, listen_irc_startup listChannels webhooksOf create ≠ Except.ok s) := by
  have hok : ∀ s, listen_irc_startup listChannels webhooksOf create = Except.ok s →
      ∃ chans, listChannels = Except.ok chans ∧
        s.bridged_channels = get_bridged_channels chans ∧
        ∀ p ∈ s.bridged_channels, ∃ hooks, webhooksOf p.1 = Except.ok hooks ∧
          (find_irc_hook hooks = none → ∃ hk, create p.1 = Except.ok hk) := by
    intro s hs
    unfold listen_irc_startup get_bridged_channels_call at hs
    cases hlc : listChannels with
    | error e =>
      rw [hlc, except_bind_error, except_bind_error] at hs
      cases hs
    | ok chans =>
      rw [hlc, except_bind_ok, except_bind_ok] at hs
      cases hoc : get_or_create_webhooks webhooksOf create (get_bridged_channels chans) with
      | error e =>
        rw [hoc, except_bind_error] at hs
        cases hs
      | ok r =>
        rw [hoc, except_bind_ok] at hs
        obtain ⟨hooks, created⟩ := r
        simp only [] at hs
        injection hs with hs
        subst hs
        refine ⟨chans, rfl, rfl, ?_⟩
        intro p hp
        exact get_or_create_webhooks_ok_calls hoc p hp
  refine ⟨?_, hok, ?_, ?_⟩
  · intro e he
    unfold listen_irc_startup get_bridged_channels_call
    rw [he, except_bind_error, except_bind_error]
  · intro chans e p hlc hp hw s hs
    obtain ⟨chans2, hlc2, hbr, hall⟩ := hok s hs
    rw [hlc] at hlc2
    injection hlc2 with hlc2
    subst hlc2
    obtain ⟨hooks, hwok, -⟩ := hall p (by rw [hbr]; exact hp)
    rw [hw] at hwok
    cases hwok
  · intro chans e p hooks hlc hp hw hfind hc s hs
    obtain ⟨chans2, hlc2, hbr, hall⟩ := hok s hs
    rw [hlc] at hlc2
    injection hlc2 with hlc2
    subst hlc2
    obtain ⟨hooks2, hwok, hcr⟩ := hall p (by rw [hbr]; exact hp)
    rw [hw] at hwok
    injection hwok with hwok
    subst hwok
    obtain ⟨hk, hcok⟩ := hcr hfind
    rw [hc] at hcok
    cases hcok

/-- Witness for C5: a failing channel listing aborts startup with that
error; a failing webhook listing for the one bridged channel prevents any
ok result. -/
theorem startup_aborts_on_failure_witness :
    listen_irc_startup (Except.error "listing failed")
        (fun _ => Except.ok []) (fun c => Except.ok ⟨some "irc", c⟩) =
      Except.error "listing failed" ∧
    ∀ s, listen_irc_startup
        (Except.ok [(1, ⟨ChannelKind.category, "irc", none⟩),
                    (100, ⟨ChannelKind.text, "general", some 1⟩)])
        (fun _ => Except.error "listing hooks failed")
        (fun c => Except.ok ⟨some "irc", c⟩) ≠ Except.ok s := by
  constructor
  · exact (startup_aborts_on_failure (Except.error "listing failed")
      (fun _ => Except.ok []) (fun c => Except.ok ⟨some "irc", c⟩)).1
      "listing failed" rfl
  · exact fun s => (startup_aborts_on_failure _ _ _).2.2.1
      [(1, ⟨ChannelKind.category, "irc", none⟩),
       (100, ⟨ChannelKind.text, "general", some 1⟩)]
      "listing hooks failed" (100, "general") rfl (by decide) rfl s

/-- Claim C7: the color is a deterministic pure function of the sender
name's bytes, always lies strictly below 2^24, and the avatar URL is
bit-exactly the fixed template around exactly six lowercase hexadecimal
digits denoting that color value. -/
theorem color_and_avatar_url_spec (name : String) :
    get_color_from_name name < 2 ^ 24 ∧
    (∀ other : String, strBytes other = strBytes name →
      get_color_from_name other = get_color_from_name name) ∧
    avatar_url_for name =
      "https://singlecolorimage.com/get/" ++
        format_hex06 (get_color_from_name name) ++ "/1x1" ∧
    (format_hex06 (get_color_from_name name)).length = 6 ∧
    (∀ c ∈ (format_hex06 (get_color_from_name name)).data, isLowerHexDigit c = true) ∧
    hexListVal (format_hex06 (get_color_from_name name)).data =
      get_color_from_name name := by
  refine ⟨get_color_from_name_lt name, ?_, rfl, ?_, format_hex06_chars _, format_hex06_val _⟩
  · intro other h
    unfold get_color_from_name
    rw [h]
  · refine format_hex06_length ?_
    have h := get_color_from_name_lt name
    norm_num at h ⊢
    exact h

set_option maxRecDepth 8000 in
/-- Witness for C7 at the concrete name "alice": color 0x278ebc, below
2^24, and the synthesized URL. -/
theorem color_and_avatar_url_spec_witness :
    get_color_from_name "alice" < 2 ^ 24 ∧
    get_color_from_name "alice" = get_color_from_name "alice" ∧
    avatar_url_for "alice" = "https://singlecolorimage.com/get/278ebc/1x1" := by
  have h := color_and_avatar_url_spec "alice"
  refine ⟨h.1, h.2.1 "alice" rfl, h.2.2.1.trans ?_⟩
  decide
